import Mathlib

/-!
Verification of the Rally Statistics Engine of the RallyCoach AI demo
(`src/inference.py`, `analyze_video`, duplicated in
`src/tennis_analysis/utils.py`, `main`).

The engine consumes per-frame player/ball positions in mini-court pixel
coordinates, an ordered list of ball-shot frame indices, and court geometry,
and produces per-segment recovery records, a per-frame statistics timeline
(built with a pandas left-merge followed by forward-fill), and an aggregate
summary.

Conventions of the embedding:
* Frame indices are `ℕ`; coordinates and speeds are `ℚ`.
* `player_mc` / `ball_mc` (Python dicts keyed by frame) become functions
  `ℕ → Option _`; a missing key is `none`.
* `measure_distance` is imported by the source from an external `utils`
  module that is not part of this repository; the engine only feeds its
  results into comparisons and into the linear pixel→meter scale, so it is
  kept abstract as a field `dist` of the environment.  Where a claim speaks
  of Euclidean distance specifically, `euclidSq` below is used: comparing
  Euclidean distances is equivalent to comparing their squares (the square
  root is strictly monotone on nonnegative rationals), so squared distance
  is a faithful, rational-valued realisation of `measure_distance` for every
  comparison the engine performs.
-/

/-- Frames per second, `FPS = 24` in `src/inference.py`. -/
def FPS : ℚ := 24

/-- A point in mini-court pixel coordinates. -/
abbrev Point : Type := ℚ × ℚ

/-- Modelled from the spec: `measure_distance` (external `utils` module,
absent from `src/`) is the Euclidean distance between two points; it is
represented by its square so that it stays rational.  All uses of
`measure_distance` by the engine are comparisons, which the squaring
preserves. -/
def euclidSq (a b : Point) : ℚ :=
  (a.1 - b.1) ^ 2 + (a.2 - b.2) ^ 2

/-- The per-frame player dictionary `player_mc[f] : {PlayerID → Point2D}`;
keys range over the two PlayerIDs 1 and 2, each possibly absent. -/
structure PlayersDict where
  player1 : Option Point
  player2 : Option Point
deriving Repr, DecidableEq

/-- `pid in players` / `players[pid]` for a per-frame player dictionary. -/
def PlayersDict.get (players : PlayersDict) (pid : ℕ) : Option Point :=
  if pid = 1 then players.player1
  else if pid = 2 then players.player2
  else none

/-- The inputs the engine reads: position stores, court geometry and the
external distance function (see the module comment). -/
structure Env where
  dist : Point → Point → ℚ
  playerPos : ℕ → Option PlayersDict
  ballPos : ℕ → Option Point
  baseline : ℕ → Point
  doubleLineWidth : ℚ
  miniWidth : ℚ

/-- Modelled from the spec: `convert_pixel_distance_to_meters` (external
`utils` module, absent from `src/`) applies the fixed linear scale
`meters = pixels * real_court_width_m / mini_court_pixel_width`. -/
def pxToM (env : Env) (px : ℚ) : ℚ :=
  px * env.doubleLineWidth / env.miniWidth

/-- `RECOVERY_RADIUS_PX = RECOVERY_RADIUS_METERS * mini_width / DOUBLE_LINE_WIDTH`
with `RECOVERY_RADIUS_METERS = 1.5` (`src/inference.py`). -/
def recoveryRadiusPx (env : Env) : ℚ :=
  (3 / 2) * env.miniWidth / env.doubleLineWidth

/-- `min(players, key=lambda p: measure_distance(players[p], ball))`:
the present PlayerID whose position is closest to the ball, ties going to
the lower PlayerID (Python's `min` keeps the first minimum in the dict's
deterministic 1-then-2 iteration order); `none` when the dict is empty. -/
def resolveHitter (dist : Point → Point → ℚ) (players : PlayersDict)
    (ball : Point) : Option ℕ :=
  match players.player1, players.player2 with
  | none, none => none
  | some _, none => some 1
  | none, some _ => some 2
  | some q1, some q2 => some (if dist q1 ball ≤ dist q2 ball then 1 else 2)

/-- `opponent = 1 if hitter == 2 else 2`. -/
def opponentOf (hitter : ℕ) : ℕ :=
  if hitter = 2 then 1 else 2

/-- The ten statistics columns of one stats row (`src/inference.py`,
initial dict of the `stats` list, minus `frame_num`). -/
structure StatFields where
  player_1_number_of_shots : ℕ
  player_1_total_shot_speed : ℚ
  player_1_last_shot_speed : ℚ
  player_1_total_player_speed : ℚ
  player_1_last_player_speed : ℚ
  player_2_number_of_shots : ℕ
  player_2_total_shot_speed : ℚ
  player_2_last_shot_speed : ℚ
  player_2_total_player_speed : ℚ
  player_2_last_player_speed : ℚ
deriving Repr, DecidableEq

/-- The all-zero statistics row. -/
def zeroFields : StatFields :=
  ⟨0, 0, 0, 0, 0, 0, 0, 0, 0, 0⟩

/-- One appended snapshot: `frame_num` plus the statistics columns. -/
structure Snapshot where
  frame_num : ℕ
  stats : StatFields
deriving Repr, DecidableEq

/-- `stats[0]`: frame 0 with all-zero statistics. -/
def initSnapshot : Snapshot :=
  ⟨0, zeroFields⟩

/-- `cur[f"player_{hitter}_number_of_shots"] += 1`,
`... _total_shot_speed += ball_speed`, `... _last_shot_speed = ball_speed`. -/
def updShot (st : StatFields) (pid : ℕ) (speed : ℚ) : StatFields :=
  if pid = 1 then
    { st with player_1_number_of_shots := st.player_1_number_of_shots + 1,
              player_1_total_shot_speed := st.player_1_total_shot_speed + speed,
              player_1_last_shot_speed := speed }
  else if pid = 2 then
    { st with player_2_number_of_shots := st.player_2_number_of_shots + 1,
              player_2_total_shot_speed := st.player_2_total_shot_speed + speed,
              player_2_last_shot_speed := speed }
  else st

/-- `cur[f"player_{opponent}_total_player_speed"] += opp_speed`,
`... _last_player_speed = opp_speed`. -/
def updMove (st : StatFields) (pid : ℕ) (speed : ℚ) : StatFields :=
  if pid = 1 then
    { st with player_1_total_player_speed := st.player_1_total_player_speed + speed,
              player_1_last_player_speed := speed }
  else if pid = 2 then
    { st with player_2_total_player_speed := st.player_2_total_player_speed + speed,
              player_2_last_player_speed := speed }
  else st

/-- One iteration of the shot-speed loop (`src/inference.py` lines 280-323):
guard `dt == 0`, guard ball presence at both endpoints and player presence at
`start`, resolve the hitter, compute the ball speed and (when the opponent is
present at both endpoints) the opponent's movement speed, then append a copy
of the last snapshot with the hitter's shot fields and the opponent's
movement fields updated.  The pair is `(start, endf)` for `start, end`. -/
def stepStats (env : Env) (snaps : List Snapshot) (seg : ℕ × ℕ) :
    List Snapshot :=
  let start := seg.1
  let endf := seg.2
  let dt : ℚ := ((endf : ℚ) - (start : ℚ)) / FPS
  if dt = 0 then snaps
  else
    match env.ballPos start, env.ballPos endf, env.playerPos start with
    | some bs, some be, some players =>
      match resolveHitter env.dist players bs with
      | none => snaps
      | some hitter =>
        let opponent := opponentOf hitter
        let ballSpeed := pxToM env (env.dist bs be) / dt * (18 / 5)
        let oppSpeed : ℚ :=
          match env.playerPos endf with
          | some pe =>
            match players.get opponent, pe.get opponent with
            | some ps, some pe2 => pxToM env (env.dist ps pe2) / dt * (18 / 5)
            | _, _ => 0
          | none => 0
        let cur := snaps.getLastD initSnapshot
        snaps ++ [⟨start, updMove (updShot cur.stats hitter ballSpeed) opponent oppSpeed⟩]
    | _, _, _ => snaps

/-- Whether the opponent's position contributes a movement speed:
`end in player_mc and opponent in player_mc[start] and opponent in player_mc[end]`. -/
def oppKnown (env : Env) (players : PlayersDict) (opponent endf : ℕ) : Prop :=
  ∃ pe ps pe2, env.playerPos endf = some pe ∧
    players.get opponent = some ps ∧ pe.get opponent = some pe2

instance (env : Env) (players : PlayersDict) (opponent endf : ℕ) :
    Decidable (oppKnown env players opponent endf) := by
  unfold oppKnown
  cases h : env.playerPos endf with
  | none => exact .isFalse (by simp [h])
  | some pe =>
    cases h1 : players.get opponent with
    | none => exact .isFalse (by simp [h, h1])
    | some ps =>
      cases h2 : pe.get opponent with
      | none => exact .isFalse (by simp [h, h1, h2])
      | some pe2 => exact .isTrue ⟨pe, ps, pe2, by simp [h, h1, h2]⟩

/-- `f in player_mc and opponent in player_mc[f] and
measure_distance(player_mc[f][opponent], baseline_centers[opponent]) <= RECOVERY_RADIUS_PX`. -/
def recoveredAt (env : Env) (opponent f : ℕ) : Bool :=
  match env.playerPos f with
  | none => false
  | some players =>
    match players.get opponent with
    | none => false
    | some p => decide (env.dist p (env.baseline opponent) ≤ recoveryRadiusPx env)

/-- The scan `for f in range(start, end)` keeping the first recovered frame;
`k` is the number of frames left to scan. -/
def recoveryScanAux (env : Env) (opponent start : ℕ) : ℕ → ℕ → ℚ
  | _, 0 => -1
  | f, k + 1 =>
    if recoveredAt env opponent f then ((f : ℚ) - (start : ℚ)) / FPS
    else recoveryScanAux env opponent start (f + 1) k

/-- `recovery_time` for segment `(start, endf)`: `(f - start) / FPS` at the
first recovered frame `f` in `[start, endf)`, else the sentinel `-1`. -/
def recoveryScan (env : Env) (opponent start endf : ℕ) : ℚ :=
  recoveryScanAux env opponent start start (endf - start)

/-- One iteration of the recovery loop (`src/inference.py` lines 233-258):
guard presence of player and ball data at `start`, resolve the hitter, scan
`[start, endf)` for the opponent's recovery, and record
`recovery_times_by_frame[start] = {opponent: recovery_time}`.  Shot frames
are strictly increasing in every run, so the dict keys `start` are fresh and
the dict is represented by its association list in insertion order. -/
def stepRecovery (env : Env) (m : List (ℕ × ℕ × ℚ)) (seg : ℕ × ℕ) :
    List (ℕ × ℕ × ℚ) :=
  let start := seg.1
  let endf := seg.2
  match env.playerPos start, env.ballPos start with
  | some players, some bs =>
    match resolveHitter env.dist players bs with
    | none => m
    | some hitter =>
      m ++ [(start, opponentOf hitter, recoveryScan env (opponentOf hitter) start endf)]
  | _, _ => m

/-- Consecutive shot-frame pairs `(ball_shot_frames[i], ball_shot_frames[i+1])`. -/
def segmentsOf (shots : List ℕ) : List (ℕ × ℕ) :=
  shots.zip shots.tail

/-- The recovery map of a whole run. -/
def runRecovery (env : Env) (shots : List ℕ) : List (ℕ × ℕ × ℚ) :=
  (segmentsOf shots).foldl (stepRecovery env) []

/-- The snapshot sequence of a whole run: the all-zero row followed by one
appended snapshot per valid segment. -/
def runStats (env : Env) (shots : List ℕ) : List Snapshot :=
  (segmentsOf shots).foldl (stepStats env) [initSnapshot]

/-- The left merge `pd.merge(frames_df, df, on="frame_num", how="left")`:
for each frame `f` of `range(total)` in order, the matching stats rows in
their original order, or a single row with null statistics columns when no
snapshot has `frame_num = f`. -/
def mergedRows (total : ℕ) (snaps : List Snapshot) :
    List (ℕ × Option StatFields) :=
  (List.range total).flatMap (fun f =>
    match (snaps.filter (fun s => s.frame_num = f)).map Snapshot.stats with
    | [] => [(f, none)]
    | ms => ms.map (fun st => (f, some st)))

/-- `.ffill().fillna(0)`: forward-fill the null statistics columns with the
most recent non-null row, rows before any non-null row becoming all-zero
(the carry starts at `zeroFields`). -/
def ffillRows (carry : StatFields) :
    List (ℕ × Option StatFields) → List (ℕ × StatFields)
  | [] => []
  | (f, none) :: rest => (f, carry) :: ffillRows carry rest
  | (f, some st) :: rest => (f, st) :: ffillRows st rest

/-- The dense per-frame statistics timeline
`pd.merge(frames_df, df, on="frame_num", how="left").ffill().fillna(0)`. -/
def timelineOf (total : ℕ) (snaps : List Snapshot) : List (ℕ × StatFields) :=
  ffillRows zeroFields (mergedRows total snaps)

/-- The forward-fill specification: the statistics of the most recently
emitted snapshot whose `frame_num` is at or before `f` (the carry `c` is
returned when no snapshot qualifies). -/
def latestAtOrBefore (c : StatFields) : List Snapshot → ℕ → StatFields
  | [], _ => c
  | s :: rest, f =>
    if s.frame_num ≤ f then latestAtOrBefore s.stats rest f
    else latestAtOrBefore c rest f

/-- `df["player_1_average_shot_speed"] =
df["player_1_total_shot_speed"] / df["player_1_number_of_shots"].replace(0, 1)`. -/
def avgShotSpeed1 (r : StatFields) : ℚ :=
  r.player_1_total_shot_speed /
    ((if r.player_1_number_of_shots = 0 then 1 else r.player_1_number_of_shots : ℕ) : ℚ)

/-- `df["player_2_average_shot_speed"] =
df["player_2_total_shot_speed"] / df["player_2_number_of_shots"].replace(0, 1)`. -/
def avgShotSpeed2 (r : StatFields) : ℚ :=
  r.player_2_total_shot_speed /
    ((if r.player_2_number_of_shots = 0 then 1 else r.player_2_number_of_shots : ℕ) : ℚ)

/-- `df["player_1_average_player_speed"] =
df["player_1_total_player_speed"] / df["player_2_number_of_shots"].replace(0, 1)`
(the denominator the source actually uses is player 2's shot count). -/
def avgPlayerSpeed1 (r : StatFields) : ℚ :=
  r.player_1_total_player_speed /
    ((if r.player_2_number_of_shots = 0 then 1 else r.player_2_number_of_shots : ℕ) : ℚ)

/-- `df["player_2_average_player_speed"] =
df["player_2_total_player_speed"] / df["player_1_number_of_shots"].replace(0, 1)`
(the denominator the source actually uses is player 1's shot count). -/
def avgPlayerSpeed2 (r : StatFields) : ℚ :=
  r.player_2_total_player_speed /
    ((if r.player_1_number_of_shots = 0 then 1 else r.player_1_number_of_shots : ℕ) : ℚ)

/-- `last_ball_speed = max(df.iloc[i]["player_1_last_shot_speed"],
df.iloc[i]["player_2_last_shot_speed"])` (`src/inference.py` lines 415-416),
the "Last Shot Speed" value handed to the table overlay at each frame. -/
def displayedLastShotSpeed (r : StatFields) : ℚ :=
  max r.player_1_last_shot_speed r.player_2_last_shot_speed

/-- Whether the shot-speed loop appends a snapshot for a segment: `dt ≠ 0`,
ball positions present at both endpoints, and the player dict at `start`
present and nonempty. -/
def validSeg (env : Env) (seg : ℕ × ℕ) : Bool :=
  if ((seg.2 : ℚ) - (seg.1 : ℚ)) / FPS = 0 then false
  else
    match env.ballPos seg.1, env.ballPos seg.2, env.playerPos seg.1 with
    | some bs, some _, some players => (resolveHitter env.dist players bs).isSome
    | _, _, _ => false

/-- The claim-relevant fields of the aggregate summary `biomechanics`
(`src/inference.py` lines 434-473): the shot counts read from the final
timeline row `df.iloc[-1]`, their sum `total_shots`, the frame count and the
derived duration.  The remaining summary fields (display-rounded averages,
distances and recovery means) are read from the same final row and from the
recovery map and are not touched by any verified property. -/
structure Biomech where
  total_shots : ℕ
  player_1_shots : ℕ
  player_2_shots : ℕ
  total_frames : ℕ
  duration_seconds : ℚ
deriving Repr, DecidableEq

/-- The aggregate summary builder: run the statistics loops, expand to the
per-frame timeline, read the final row (`df.iloc[-1]`; a video always has at
least one frame, so the timeline is nonempty and the fallback row is never
read), and total the two shot counts. -/
def buildBiomech (env : Env) (shots : List ℕ) (total : ℕ) : Biomech :=
  let timeline := timelineOf total (runStats env shots)
  let fin := ((timeline.getLast?).map Prod.snd).getD zeroFields
  let p1 := fin.player_1_number_of_shots
  let p2 := fin.player_2_number_of_shots
  { total_shots := p1 + p2
    player_1_shots := p1
    player_2_shots := p2
    total_frames := total
    duration_seconds := (total : ℚ) / FPS }

/-- `cur[f"player_{pid}_number_of_shots"]` as a function of the PlayerID. -/
def shotsOf (st : StatFields) (pid : ℕ) : ℕ :=
  if pid = 1 then st.player_1_number_of_shots
  else if pid = 2 then st.player_2_number_of_shots
  else 0

/-- `cur[f"player_{pid}_total_shot_speed"]` as a function of the PlayerID. -/
def totalShotSpeedOf (st : StatFields) (pid : ℕ) : ℚ :=
  if pid = 1 then st.player_1_total_shot_speed
  else if pid = 2 then st.player_2_total_shot_speed
  else 0

/-- `cur[f"player_{pid}_last_shot_speed"]` as a function of the PlayerID. -/
def lastShotSpeedOf (st : StatFields) (pid : ℕ) : ℚ :=
  if pid = 1 then st.player_1_last_shot_speed
  else if pid = 2 then st.player_2_last_shot_speed
  else 0

/-- `cur[f"player_{pid}_total_player_speed"]` as a function of the PlayerID. -/
def totalPlayerSpeedOf (st : StatFields) (pid : ℕ) : ℚ :=
  if pid = 1 then st.player_1_total_player_speed
  else if pid = 2 then st.player_2_total_player_speed
  else 0

/-- `cur[f"player_{pid}_last_player_speed"]` as a function of the PlayerID. -/
def lastPlayerSpeedOf (st : StatFields) (pid : ℕ) : ℚ :=
  if pid = 1 then st.player_1_last_player_speed
  else if pid = 2 then st.player_2_last_player_speed
  else 0

/-- The two shot counts of a row added together
(`total_shots = p1_shots + p2_shots`). -/
def sumShots (st : StatFields) : ℕ :=
  st.player_1_number_of_shots + st.player_2_number_of_shots

/-- The ball speed the shot-speed loop computes for a segment,
`(convert_pixel_distance_to_meters(measure_distance(...)) / dt) * 3.6`. -/
def ballSpeedOf (env : Env) (start endf : ℕ) (bs be : Point) : ℚ :=
  pxToM env (env.dist bs be) / (((endf : ℚ) - (start : ℚ)) / FPS) * (18 / 5)

/-- The carry a forward-fill pass holds after a list of rows: the statistics
of the last non-null row, else the initial carry. -/
def ffillCarry (c : StatFields) (xs : List (ℕ × Option StatFields)) : StatFields :=
  xs.foldl (fun a r => match r.2 with | some st => st | none => a) c

/-- The statistics of the most recently emitted snapshot strictly before
frame `n` (the carry `c` when no snapshot qualifies). -/
def latestBelow (c : StatFields) : List Snapshot → ℕ → StatFields
  | [], _ => c
  | s :: rest, n =>
    if s.frame_num < n then latestBelow s.stats rest n
    else latestBelow c rest n

/-- Concrete player positions for a four-shot test run: frames 1-4 carry
both players, every other frame carries none. -/
def cenvPlayers : ℕ → Option PlayersDict
  | 1 => some ⟨some (100, 0), some (0, 0)⟩
  | 2 => some ⟨some (100, 0), some (0, 0)⟩
  | 3 => some ⟨some (0, 0), some (100, 0)⟩
  | 4 => some ⟨some (6, 0), some (100, 0)⟩
  | _ => none

/-- Concrete ball positions for the four-shot test run. -/
def cenvBall : ℕ → Option Point
  | 1 => some (0, 0)
  | 2 => some (48, 0)
  | 3 => some (0, 0)
  | 4 => some (1, 0)
  | _ => none

/-- A concrete environment for test runs: player 2 hits fast shots from the
segments starting at frames 1 and 2, player 1 hits a slow shot from the
segment starting at frame 3. -/
def cenv : Env :=
  ⟨euclidSq, cenvPlayers, cenvBall,
   fun pid => if pid = 1 then (0, 0) else (100, 0), 1, 1⟩

/-- The shot frames of the concrete test run. -/
def cshots : List ℕ := [1, 2, 3, 4]

/-- Concrete player positions with player 2 absent at frame 2: the opponent
of the segment `(1, 2)` is missing at its end frame. -/
def menvPlayers : ℕ → Option PlayersDict
  | 1 => some ⟨some (0, 0), some (5, 0)⟩
  | 2 => some ⟨some (0, 0), none⟩
  | _ => none

/-- Concrete ball positions for the missing-opponent run. -/
def menvBall : ℕ → Option Point
  | 1 => some (1, 0)
  | 2 => some (2, 0)
  | _ => none

/-- A concrete environment in which the opponent's position is missing at a
segment's end frame. -/
def menv : Env :=
  ⟨euclidSq, menvPlayers, menvBall, fun _ => (0, 0), 1, 1⟩

/-- Concrete player positions for a run whose first shot is at frame 0. -/
def zenvPlayers : ℕ → Option PlayersDict
  | 0 => some ⟨some (0, 0), some (10, 0)⟩
  | 1 => some ⟨some (0, 0), some (10, 0)⟩
  | _ => none

/-- Concrete ball positions for the frame-0-shot run. -/
def zenvBall : ℕ → Option Point
  | 0 => some (1, 0)
  | 1 => some (5, 0)
  | _ => none

/-- A concrete environment whose shot list starts with a valid segment at
frame 0 — the segment's snapshot then shares merge key 0 with the initial
all-zero stats row. -/
def zenv : Env :=
  ⟨euclidSq, zenvPlayers, zenvBall, fun _ => (0, 0), 1, 1⟩

/-- The per-player fields-invariant "a zero shot count comes with a zero
shot-speed total", maintained by every appended snapshot. -/
def zeroCountZeroTotal (st : StatFields) : Prop :=
  (st.player_1_number_of_shots = 0 → st.player_1_total_shot_speed = 0) ∧
  (st.player_2_number_of_shots = 0 → st.player_2_total_shot_speed = 0)


lemma resolveHitter_mem {dist : Point → Point → ℚ} {players : PlayersDict}
    {ball : Point} {h : ℕ} (hres : resolveHitter dist players ball = some h) :
    h = 1 ∨ h = 2 := by
  rcases players with ⟨_ | q1, _ | q2⟩
  · simp [resolveHitter] at hres
  · simp only [resolveHitter, Option.some.injEq] at hres
    exact Or.inr hres.symm
  · simp only [resolveHitter, Option.some.injEq] at hres
    exact Or.inl hres.symm
  · simp only [resolveHitter, Option.some.injEq] at hres
    split_ifs at hres
    · exact Or.inl hres.symm
    · exact Or.inr hres.symm

lemma replace_eq_max (c : ℕ) : (if c = 0 then 1 else c) = max c 1 := by
  rcases Nat.eq_zero_or_pos c with h | h
  · simp [h]
  · rw [if_neg (Nat.pos_iff_ne_zero.mp h), Nat.max_eq_left h]

/-- C1: for every processed segment, the resolved hitter is a PlayerID in
{1, 2} whose position minimizes the (squared, hence also plain) Euclidean
distance to the ball at the segment's start frame, ties going to the lower
PlayerID; the opponent is the other player, so `hitter ≠ opponent` and
`{hitter, opponent} = {1, 2}` always. -/
theorem hitter_opponent_partition (players : PlayersDict) (ball : Point) (h : ℕ)
    (hres : resolveHitter euclidSq players ball = some h) :
    (h = 1 ∨ h = 2) ∧ opponentOf h ≠ h ∧
    ({h, opponentOf h} : Finset ℕ) = {1, 2} ∧
    (∀ pid q, players.get pid = some q →
      ∃ ph, players.get h = some ph ∧ euclidSq ph ball ≤ euclidSq q ball) ∧
    (∀ q1 q2, players.player1 = some q1 → players.player2 = some q2 →
      euclidSq q1 ball = euclidSq q2 ball → h = 1) := by
  have hmem := resolveHitter_mem hres
  refine ⟨hmem, ?_, ?_, ?_, ?_⟩
  · rcases hmem with h1 | h2 <;> subst_vars <;> decide
  · rcases hmem with h1 | h2 <;> subst_vars <;> decide
  · intro pid q hq
    rcases players with ⟨_ | q1, _ | q2⟩
    · simp [resolveHitter] at hres
    · -- only player 2 present
      simp only [resolveHitter, Option.some.injEq] at hres
      subst hres
      simp [PlayersDict.get] at hq ⊢
      obtain ⟨-, -, hval⟩ := hq
      rw [← hval]
    · -- only player 1 present
      simp only [resolveHitter, Option.some.injEq] at hres
      subst hres
      simp [PlayersDict.get] at hq ⊢
      obtain ⟨-, hval⟩ := hq
      rw [← hval]
    · -- both players present
      simp only [resolveHitter, Option.some.injEq] at hres
      split_ifs at hres with hc
      · -- hitter is player 1
        subst hres
        refine ⟨q1, by simp [PlayersDict.get], ?_⟩
        simp only [PlayersDict.get] at hq
        split_ifs at hq
        · rw [← Option.some.inj hq]
        · rw [← Option.some.inj hq]; exact hc
      · -- hitter is player 2
        subst hres
        refine ⟨q2, by simp [PlayersDict.get], ?_⟩
        simp only [PlayersDict.get] at hq
        split_ifs at hq
        · rw [← Option.some.inj hq]; exact le_of_lt (lt_of_not_le hc)
        · rw [← Option.some.inj hq]
  · intro q1 q2 hq1 hq2 heq
    rcases players with ⟨p1, p2⟩
    simp only at hq1 hq2
    subst hq1; subst hq2
    simp only [resolveHitter, Option.some.injEq] at hres
    rw [if_pos (le_of_eq heq)] at hres
    exact hres.symm

/-- Witness for C1 at a concrete input: player 1 at (0,0), player 2 at
(3,0), ball at (1,0); player 1 is closer and is resolved as the hitter. -/
theorem hitter_opponent_partition_wit :
    resolveHitter euclidSq ⟨some (0, 0), some (3, 0)⟩ (1, 0) = some 1 ∧
    ((1 = 1 ∨ 1 = 2) ∧ opponentOf 1 ≠ 1 ∧
     ({1, opponentOf 1} : Finset ℕ) = {1, 2} ∧
     (∀ pid q, (⟨some (0, 0), some (3, 0)⟩ : PlayersDict).get pid = some q →
       ∃ ph, (⟨some (0, 0), some (3, 0)⟩ : PlayersDict).get 1 = some ph ∧
         euclidSq ph (1, 0) ≤ euclidSq q (1, 0)) ∧
     (∀ q1 q2, (⟨some (0, 0), some (3, 0)⟩ : PlayersDict).player1 = some q1 →
       (⟨some (0, 0), some (3, 0)⟩ : PlayersDict).player2 = some q2 →
       euclidSq q1 (1, 0) = euclidSq q2 (1, 0) → 1 = 1)) :=
  ⟨by norm_num [resolveHitter, euclidSq],
   hitter_opponent_partition ⟨some (0, 0), some (3, 0)⟩ (1, 0) 1
     (by norm_num [resolveHitter, euclidSq])⟩

/-- C4: on every statistics row (hence on every frame of the timeline), the
average movement speed of player 1 is that player's movement-speed total
divided by player 2's shot count (zero replaced by 1), and symmetrically for
player 2 — the denominator is the opponent's shot count.  The final row of
the concrete test run shows the own-count quotient differs, so the cross
wiring is observable. -/
theorem avg_player_speed_cross_denominator :
    (∀ r : StatFields,
      avgPlayerSpeed1 r = r.player_1_total_player_speed /
        ((max r.player_2_number_of_shots 1 : ℕ) : ℚ) ∧
      avgPlayerSpeed2 r = r.player_2_total_player_speed /
        ((max r.player_1_number_of_shots 1 : ℕ) : ℚ)) ∧
    avgPlayerSpeed1 ((runStats cenv cshots).getLastD initSnapshot).stats ≠
      ((runStats cenv cshots).getLastD initSnapshot).stats.player_1_total_player_speed /
        ((max ((runStats cenv cshots).getLastD initSnapshot).stats.player_1_number_of_shots 1 : ℕ) : ℚ) := by
  constructor
  · intro r
    simp [avgPlayerSpeed1, avgPlayerSpeed2, replace_eq_max]
  · norm_num [runStats, segmentsOf, cshots, stepStats, cenv, cenvPlayers, cenvBall,
      resolveHitter, euclidSq, opponentOf, pxToM, FPS, updShot, updMove, initSnapshot,
      zeroFields, PlayersDict.get, avgPlayerSpeed1]

/-- C10: the "last shot speed" handed to the overlay at a frame is the
maximum of the two players' `last_shot_speed` fields, not the last shot
speed of the most recent hitter: in the concrete test run the last segment's
hitter is player 1, yet the displayed value is player 2's faster earlier
shot. -/
theorem displayed_last_shot_speed_is_max :
    (∀ r : StatFields, displayedLastShotSpeed r =
      max r.player_1_last_shot_speed r.player_2_last_shot_speed) ∧
    cenvPlayers 3 = some ⟨some (0, 0), some (100, 0)⟩ ∧
    cenvBall 3 = some (0, 0) ∧
    resolveHitter euclidSq ⟨some (0, 0), some (100, 0)⟩ (0, 0) = some 1 ∧
    ((runStats cenv cshots).getLastD initSnapshot).frame_num = 3 ∧
    displayedLastShotSpeed ((runStats cenv cshots).getLastD initSnapshot).stats =
      ((runStats cenv cshots).getLastD initSnapshot).stats.player_2_last_shot_speed ∧
    ((runStats cenv cshots).getLastD initSnapshot).stats.player_1_last_shot_speed <
      ((runStats cenv cshots).getLastD initSnapshot).stats.player_2_last_shot_speed := by
  refine ⟨fun r => rfl, rfl, rfl, by norm_num [resolveHitter, euclidSq], ?_, ?_, ?_⟩ <;>
    norm_num [runStats, segmentsOf, cshots, stepStats, cenv, cenvPlayers, cenvBall,
      resolveHitter, euclidSq, opponentOf, pxToM, FPS, updShot, updMove, initSnapshot,
      zeroFields, PlayersDict.get, displayedLastShotSpeed, max_def]

/-- C7: for a zero-duration segment (`dt == 0`), the shot-speed loop leaves
the snapshot sequence unchanged — the guard fires before any division — and
the recovery loop, which runs independently of the skip, still records its
entry for the segment, the empty scan range yielding the sentinel -1. -/
theorem degenerate_segment_skip (env : Env) (snaps : List Snapshot)
    (m : List (ℕ × ℕ × ℚ)) (start endf : ℕ)
    (hdt : ((endf : ℚ) - (start : ℚ)) / FPS = 0) :
    stepStats env snaps (start, endf) = snaps ∧
    (∀ players bs hitter, env.playerPos start = some players →
      env.ballPos start = some bs →
      resolveHitter env.dist players bs = some hitter →
      stepRecovery env m (start, endf) = m ++ [(start, opponentOf hitter, -1)]) := by
  have hse : endf = start := by
    have h24 : (FPS : ℚ) ≠ 0 := by norm_num [FPS]
    rcases div_eq_zero_iff.mp hdt with hnum | hden
    · exact_mod_cast sub_eq_zero.mp hnum
    · exact absurd hden h24
  constructor
  · simp [stepStats, hdt]
  · intro players bs hitter hp hb hh
    subst hse
    simp [stepRecovery, hp, hb, hh, recoveryScan, Nat.sub_self, recoveryScanAux]

/-- Witness for C7 at a concrete input: the degenerate segment (2, 2) of the
test environment leaves the snapshot list unchanged and records a sentinel
recovery entry for the hitter's opponent. -/
theorem degenerate_segment_skip_wit :
    ((2 : ℚ) - (2 : ℚ)) / FPS = 0 ∧
    stepStats cenv [] (2, 2) = [] ∧
    stepRecovery cenv [] (2, 2) = [] ++ [(2, opponentOf 2, -1)] := by
  have h := degenerate_segment_skip cenv [] [] 2 2 (by norm_num)
  exact ⟨by norm_num, h.1,
    h.2 ⟨some (100, 0), some (0, 0)⟩ (48, 0) 2 rfl rfl
      (by norm_num [cenv, resolveHitter, euclidSq])⟩

/-- C5: for a segment passing all stats guards whose opponent position is
missing at the start or end frame, the segment is not skipped: a snapshot is
appended in which the hitter's shot count, shot-speed total and last shot
speed are updated with the ball speed, while the opponent's movement speed
is recorded as 0 (the movement total unchanged, the last movement speed 0). -/
theorem missing_opponent_zero_speed (env : Env) (snaps : List Snapshot)
    (start endf : ℕ) (bs be : Point) (players : PlayersDict) (hitter : ℕ)
    (hdt : ((endf : ℚ) - (start : ℚ)) / FPS ≠ 0)
    (hbs : env.ballPos start = some bs) (hbe : env.ballPos endf = some be)
    (hp : env.playerPos start = some players)
    (hh : resolveHitter env.dist players bs = some hitter)
    (hmiss : ¬ oppKnown env players (opponentOf hitter) endf) :
    ∃ st, stepStats env snaps (start, endf) = snaps ++ [⟨start, st⟩] ∧
      shotsOf st hitter = shotsOf (snaps.getLastD initSnapshot).stats hitter + 1 ∧
      totalShotSpeedOf st hitter =
        totalShotSpeedOf (snaps.getLastD initSnapshot).stats hitter +
          ballSpeedOf env start endf bs be ∧
      lastShotSpeedOf st hitter = ballSpeedOf env start endf bs be ∧
      totalPlayerSpeedOf st (opponentOf hitter) =
        totalPlayerSpeedOf (snaps.getLastD initSnapshot).stats (opponentOf hitter) ∧
      lastPlayerSpeedOf st (opponentOf hitter) = 0 := by
  refine ⟨updMove (updShot (snaps.getLastD initSnapshot).stats hitter
      (ballSpeedOf env start endf bs be)) (opponentOf hitter) 0, ?_, ?_, ?_, ?_, ?_, ?_⟩
  · unfold stepStats
    simp only [hbs, hbe, hp, hh, ballSpeedOf]
    rw [if_neg hdt]
    cases hpe : env.playerPos endf with
    | none => rfl
    | some pe =>
      cases hps : players.get (opponentOf hitter) with
      | none => simp [hps]
      | some ps =>
        cases hpe2 : pe.get (opponentOf hitter) with
        | none => simp [hps, hpe2]
        | some pe2 => exact absurd ⟨pe, ps, pe2, hpe, hps, hpe2⟩ hmiss
  all_goals
    rcases resolveHitter_mem hh with h1 | h1 <;> subst h1 <;>
      simp [updShot, updMove, opponentOf, shotsOf, totalShotSpeedOf,
        lastShotSpeedOf, totalPlayerSpeedOf, lastPlayerSpeedOf]

/-- Witness for C5 at a concrete input: in `menv` the segment (1, 2) has
hitter 1 whose opponent (player 2) is missing at the end frame; the shot is
attributed to player 1 and the movement speed recorded for player 2 is 0. -/
theorem missing_opponent_zero_speed_wit :
    (((2 : ℚ) - (1 : ℚ)) / FPS ≠ 0) ∧
    menv.ballPos 1 = some (1, 0) ∧ menv.ballPos 2 = some (2, 0) ∧
    menv.playerPos 1 = some ⟨some (0, 0), some (5, 0)⟩ ∧
    resolveHitter menv.dist ⟨some (0, 0), some (5, 0)⟩ (1, 0) = some 1 ∧
    ¬ oppKnown menv ⟨some (0, 0), some (5, 0)⟩ (opponentOf 1) 2 ∧
    (∃ st, stepStats menv [] (1, 2) = [] ++ [⟨1, st⟩] ∧
      shotsOf st 1 = shotsOf (([] : List Snapshot).getLastD initSnapshot).stats 1 + 1 ∧
      totalShotSpeedOf st 1 =
        totalShotSpeedOf (([] : List Snapshot).getLastD initSnapshot).stats 1 +
          ballSpeedOf menv 1 2 (1, 0) (2, 0) ∧
      lastShotSpeedOf st 1 = ballSpeedOf menv 1 2 (1, 0) (2, 0) ∧
      totalPlayerSpeedOf st (opponentOf 1) =
        totalPlayerSpeedOf (([] : List Snapshot).getLastD initSnapshot).stats (opponentOf 1) ∧
      lastPlayerSpeedOf st (opponentOf 1) = 0) := by
  have hmiss : ¬ oppKnown menv ⟨some (0, 0), some (5, 0)⟩ (opponentOf 1) 2 := by
    rintro ⟨pe, ps, pe2, hpe, hps, hpe2⟩
    rw [show menv.playerPos 2 = some ⟨some (0, 0), none⟩ from rfl] at hpe
    cases Option.some.inj hpe
    simp [PlayersDict.get, opponentOf] at hpe2
  refine ⟨by norm_num [FPS], rfl, rfl, rfl, by norm_num [menv, resolveHitter, euclidSq],
    hmiss, ?_⟩
  exact missing_opponent_zero_speed menv [] 1 2 (1, 0) (2, 0)
    ⟨some (0, 0), some (5, 0)⟩ 1 (by norm_num [FPS]) rfl rfl rfl
    (by norm_num [menv, resolveHitter, euclidSq]) hmiss

lemma recoveryScanAux_spec (env : Env) (opp start : ℕ) :
    ∀ (k f : ℕ),
      (∃ j, j < k ∧ recoveredAt env opp (f + j) = true ∧
        (∀ j', j' < j → recoveredAt env opp (f + j') = false) ∧
        recoveryScanAux env opp start f k = (((f + j : ℕ) : ℚ) - (start : ℚ)) / FPS) ∨
      ((∀ j, j < k → recoveredAt env opp (f + j) = false) ∧
        recoveryScanAux env opp start f k = -1) := by
  intro k
  induction k with
  | zero =>
    intro f
    exact Or.inr ⟨fun j hj => absurd hj (Nat.not_lt_zero j), rfl⟩
  | succ n ih =>
    intro f
    by_cases hc : recoveredAt env opp f = true
    · left
      refine ⟨0, Nat.succ_pos n, by simpa using hc,
        fun j' hj' => absurd hj' (Nat.not_lt_zero j'), ?_⟩
      simp [recoveryScanAux, hc]
    · have hcf : recoveredAt env opp f = false := Bool.eq_false_iff.mpr hc
      rcases ih (f + 1) with ⟨j, hj, hrec, hmin, heq⟩ | ⟨hall, heq⟩
      · left
        have hidx : f + (j + 1) = f + 1 + j := by omega
        refine ⟨j + 1, Nat.succ_lt_succ hj, by rw [hidx]; exact hrec, ?_, ?_⟩
        · intro j' hj'
          cases j' with
          | zero => simpa using hcf
          | succ m =>
            have hm : f + (m + 1) = f + 1 + m := by omega
            rw [hm]
            exact hmin m (Nat.lt_of_succ_lt_succ hj')
        · rw [hidx]
          simpa [recoveryScanAux, hcf] using heq
      · right
        refine ⟨?_, by simpa [recoveryScanAux, hcf] using heq⟩
        intro j hjn
        cases j with
        | zero => simpa using hcf
        | succ m =>
          have hm : f + (m + 1) = f + 1 + m := by omega
          rw [hm]
          exact hall m (Nat.lt_of_succ_lt_succ hjn)

lemma stepRecovery_cases (env : Env) (m : List (ℕ × ℕ × ℚ)) (seg : ℕ × ℕ) :
    stepRecovery env m seg = m ∨
    ∃ opp, stepRecovery env m seg =
      m ++ [(seg.1, opp, recoveryScan env opp seg.1 seg.2)] := by
  unfold stepRecovery
  cases hp : env.playerPos seg.1 with
  | none => exact Or.inl (by simp [hp])
  | some players =>
    cases hb : env.ballPos seg.1 with
    | none => exact Or.inl (by simp [hp, hb])
    | some bs =>
      cases hh : resolveHitter env.dist players bs with
      | none => exact Or.inl (by simp [hp, hb, hh])
      | some hitter => exact Or.inr ⟨opponentOf hitter, by simp [hp, hb, hh]⟩

lemma recoveryScan_sign (env : Env) (opp start endf : ℕ) :
    recoveryScan env opp start endf = -1 ∨ 0 ≤ recoveryScan env opp start endf := by
  rcases recoveryScanAux_spec env opp start (endf - start) start with
    ⟨j, _, _, _, heq⟩ | ⟨_, heq⟩
  · right
    rw [recoveryScan, heq]
    have h1 : (0 : ℚ) ≤ ((start + j : ℕ) : ℚ) - (start : ℚ) := by
      push_cast
      linarith [Nat.cast_nonneg (α := ℚ) j]
    have h2 : (0 : ℚ) ≤ FPS := by norm_num [FPS]
    exact div_nonneg h1 h2
  · left
    rw [recoveryScan, heq]

/-- C6: the recovery value of a segment `(start, endf)` is `(f - start)/FPS`
for the first frame `f` of `[start, endf)` at which the opponent is present
within the recovery radius of their baseline center, and the sentinel -1
when no such frame exists; consequently every value of the recovery map is
either ≥ 0 or exactly -1. -/
theorem recovery_first_frame_or_sentinel (env : Env) (shots : List ℕ) :
    (∀ opponent start endf,
      (∃ f, start ≤ f ∧ f < endf ∧ recoveredAt env opponent f = true ∧
        (∀ g, start ≤ g → g < f → recoveredAt env opponent g = false) ∧
        recoveryScan env opponent start endf = ((f : ℚ) - (start : ℚ)) / FPS) ∨
      ((∀ f, start ≤ f → f < endf → recoveredAt env opponent f = false) ∧
        recoveryScan env opponent start endf = -1)) ∧
    (∀ e ∈ runRecovery env shots, e.2.2 = -1 ∨ 0 ≤ e.2.2) := by
  constructor
  · intro opp start endf
    rcases recoveryScanAux_spec env opp start (endf - start) start with
      ⟨j, hj, hrec, hmin, heq⟩ | ⟨hall, heq⟩
    · left
      refine ⟨start + j, Nat.le_add_right _ _, by omega, hrec, ?_, heq⟩
      intro g hg1 hg2
      have hge : g = start + (g - start) := by omega
      rw [hge]
      exact hmin _ (by omega)
    · right
      refine ⟨?_, heq⟩
      intro f hf1 hf2
      have hfe : f = start + (f - start) := by omega
      rw [hfe]
      exact hall _ (by omega)
  · have hstep : ∀ m seg, (∀ e ∈ m, e.2.2 = -1 ∨ 0 ≤ e.2.2) →
        ∀ e ∈ stepRecovery env m seg, e.2.2 = -1 ∨ 0 ≤ e.2.2 := by
      intro m seg hm e he
      rcases stepRecovery_cases env m seg with h | ⟨opp, h⟩
      · rw [h] at he
        exact hm e he
      · rw [h] at he
        rcases List.mem_append.mp he with h1 | h2
        · exact hm e h1
        · have he2 := List.mem_singleton.mp h2
          subst he2
          exact recoveryScan_sign env opp seg.1 seg.2
    have hfold : ∀ (segs : List (ℕ × ℕ)) (m : List (ℕ × ℕ × ℚ)),
        (∀ e ∈ m, e.2.2 = -1 ∨ 0 ≤ e.2.2) →
        ∀ e ∈ List.foldl (stepRecovery env) m segs, e.2.2 = -1 ∨ 0 ≤ e.2.2 := by
      intro segs
      induction segs with
      | nil => intro m hm; simpa using hm
      | cons seg rest ih => intro m hm; exact ih _ (hstep m seg hm)
    intro e he
    exact hfold (segmentsOf shots) [] (by simp) e he

/-- Witness for C6 at a concrete input: the test run's third segment records
recovery value 0 for player 2, which is nonnegative. -/
theorem recovery_first_frame_or_sentinel_wit :
    (3, 2, (0 : ℚ)) ∈ runRecovery cenv cshots ∧
    ((3, 2, (0 : ℚ)).2.2 = -1 ∨ 0 ≤ (3, 2, (0 : ℚ)).2.2) := by
  have hmem : (3, 2, (0 : ℚ)) ∈ runRecovery cenv cshots := by
    norm_num [runRecovery, segmentsOf, cshots, stepRecovery, cenv, cenvPlayers,
      cenvBall, resolveHitter, euclidSq, opponentOf, recoveryScan, recoveryScanAux,
      recoveredAt, recoveryRadiusPx, PlayersDict.get, FPS]
  exact ⟨hmem, (recovery_first_frame_or_sentinel cenv cshots).2 _ hmem⟩

lemma zct_zeroFields : zeroCountZeroTotal zeroFields :=
  ⟨fun _ => rfl, fun _ => rfl⟩

lemma zct_upd (st : StatFields) (hitter opp : ℕ) (bs os : ℚ)
    (h : zeroCountZeroTotal st) :
    zeroCountZeroTotal (updMove (updShot st hitter bs) opp os) := by
  obtain ⟨h1, h2⟩ := h
  unfold zeroCountZeroTotal updShot updMove
  split_ifs <;> constructor <;> intro hc <;> simp_all

lemma getLastD_cases (l : List Snapshot) (d : Snapshot) :
    l.getLastD d = d ∨ l.getLastD d ∈ l := by
  induction l generalizing d with
  | nil => exact Or.inl rfl
  | cons a as ih =>
    rcases ih a with h | h
    · right
      rw [List.getLastD_cons, h]
      exact List.mem_cons_self a as
    · right
      rw [List.getLastD_cons]
      exact List.mem_cons_of_mem a h

lemma stepStats_cases (env : Env) (acc : List Snapshot) (seg : ℕ × ℕ) :
    (stepStats env acc seg = acc ∧ validSeg env seg = false) ∨
    ∃ hitter bspd ospd, (hitter = 1 ∨ hitter = 2) ∧ validSeg env seg = true ∧
      stepStats env acc seg = acc ++ [⟨seg.1,
        updMove (updShot (acc.getLastD initSnapshot).stats hitter bspd)
          (opponentOf hitter) ospd⟩] := by
  by_cases hdt : ((seg.2 : ℚ) - (seg.1 : ℚ)) / FPS = 0
  · exact Or.inl ⟨by simp [stepStats, hdt], by simp [validSeg, hdt]⟩
  · cases hb1 : env.ballPos seg.1 with
    | none =>
      exact Or.inl ⟨by simp [stepStats, hdt, hb1], by simp [validSeg, hdt, hb1]⟩
    | some bs =>
      cases hb2 : env.ballPos seg.2 with
      | none =>
        exact Or.inl ⟨by simp [stepStats, hdt, hb1, hb2],
          by simp [validSeg, hdt, hb1, hb2]⟩
      | some be =>
        cases hp : env.playerPos seg.1 with
        | none =>
          exact Or.inl ⟨by simp [stepStats, hdt, hb1, hb2, hp],
            by simp [validSeg, hdt, hb1, hb2, hp]⟩
        | some players =>
          cases hh : resolveHitter env.dist players bs with
          | none =>
            exact Or.inl ⟨by simp [stepStats, hdt, hb1, hb2, hp, hh],
              by simp [validSeg, hdt, hb1, hb2, hp, hh]⟩
          | some hitter =>
            refine Or.inr ⟨hitter,
              pxToM env (env.dist bs be) / (((seg.2 : ℚ) - (seg.1 : ℚ)) / FPS) * (18 / 5),
              (match env.playerPos seg.2 with
               | some pe =>
                 (match players.get (opponentOf hitter), pe.get (opponentOf hitter) with
                  | some ps, some pe2 =>
                    pxToM env (env.dist ps pe2) / (((seg.2 : ℚ) - (seg.1 : ℚ)) / FPS) * (18 / 5)
                  | _, _ => 0)
               | none => 0),
              resolveHitter_mem hh, by simp [validSeg, hdt, hb1, hb2, hp, hh], ?_⟩
            simp [stepStats, hdt, hb1, hb2, hp, hh]

lemma runStats_zct (env : Env) (shots : List ℕ) :
    ∀ s ∈ runStats env shots, zeroCountZeroTotal s.stats := by
  have hstep : ∀ (acc : List Snapshot) (seg : ℕ × ℕ),
      (∀ s ∈ acc, zeroCountZeroTotal s.stats) →
      ∀ s ∈ stepStats env acc seg, zeroCountZeroTotal s.stats := by
    intro acc seg hacc s hs
    rcases stepStats_cases env acc seg with ⟨heq, -⟩ | ⟨hitter, bspd, ospd, -, -, heq⟩
    · rw [heq] at hs
      exact hacc s hs
    · rw [heq] at hs
      rcases List.mem_append.mp hs with h1 | h2
      · exact hacc s h1
      · have h3 := List.mem_singleton.mp h2
        subst h3
        have hlast : zeroCountZeroTotal (acc.getLastD initSnapshot).stats := by
          rcases getLastD_cases acc initSnapshot with h | h
          · rw [h]; exact zct_zeroFields
          · exact hacc _ h
        exact zct_upd _ _ _ _ _ hlast
  have hfold : ∀ (segs : List (ℕ × ℕ)) (acc : List Snapshot),
      (∀ s ∈ acc, zeroCountZeroTotal s.stats) →
      ∀ s ∈ List.foldl (stepStats env) acc segs, zeroCountZeroTotal s.stats := by
    intro segs
    induction segs with
    | nil => intro acc hacc; simpa using hacc
    | cons seg rest ih => intro acc hacc; exact ih _ (hstep acc seg hacc)
  intro s hs
  refine hfold (segmentsOf shots) [initSnapshot] ?_ s hs
  intro s' hs'
  rw [List.mem_singleton.mp hs']
  exact zct_zeroFields

lemma mergedRows_source (total : ℕ) (snaps : List Snapshot) :
    ∀ p ∈ mergedRows total snaps, ∀ st, p.2 = some st → ∃ s ∈ snaps, st = s.stats := by
  intro p hp st hst
  unfold mergedRows at hp
  rcases List.mem_flatMap.mp hp with ⟨f, hf, hpf⟩
  split at hpf
  · rw [List.mem_singleton.mp hpf] at hst
    exact absurd hst (by simp)
  · rcases List.mem_map.mp hpf with ⟨st', hst', hpeq⟩
    rw [← hpeq] at hst
    have hst2 : st' = st := by simpa using hst
    subst hst2
    rcases List.mem_map.mp hst' with ⟨s, hs, hseq⟩
    exact ⟨s, List.mem_of_mem_filter hs, hseq.symm⟩

lemma ffillRows_inv (P : StatFields → Prop) :
    ∀ (rows : List (ℕ × Option StatFields)) (carry : StatFields),
      P carry → (∀ p ∈ rows, ∀ st, p.2 = some st → P st) →
      ∀ r ∈ ffillRows carry rows, P r.2 := by
  intro rows
  induction rows with
  | nil => intro carry hc hrows r hr; simp [ffillRows] at hr
  | cons p rest ih =>
    intro carry hc hrows r hr
    obtain ⟨f, op⟩ := p
    cases op with
    | none =>
      rw [show ffillRows carry ((f, none) :: rest) = (f, carry) :: ffillRows carry rest
        from rfl] at hr
      rcases List.mem_cons.mp hr with h | h
      · rw [h]; exact hc
      · exact ih carry hc (fun q hq => hrows q (List.mem_cons_of_mem _ hq)) r h
    | some st =>
      rw [show ffillRows carry ((f, some st) :: rest) = (f, st) :: ffillRows st rest
        from rfl] at hr
      have hPst : P st := hrows (f, some st) (List.mem_cons_self _ _) st rfl
      rcases List.mem_cons.mp hr with h | h
      · rw [h]; exact hPst
      · exact ih st hPst (fun q hq => hrows q (List.mem_cons_of_mem _ hq)) r h

lemma timeline_rows_inv (P : StatFields → Prop) (hzero : P zeroFields)
    (total : ℕ) (snaps : List Snapshot) (hsnaps : ∀ s ∈ snaps, P s.stats) :
    ∀ r ∈ timelineOf total snaps, P r.2 := by
  intro r hr
  refine ffillRows_inv P (mergedRows total snaps) zeroFields hzero ?_ r hr
  intro p hp st hst
  rcases mergedRows_source total snaps p hp st hst with ⟨s, hsmem, hseq⟩
  rw [hseq]
  exact hsnaps s hsmem

/-- C3: on every row of the per-frame timeline, the average shot speed is
the shot-speed total divided by `max(shot_count, 1)` — a denominator that is
never zero, so no division error arises — and a player with shot count 0
has average shot speed exactly 0. -/
theorem avg_shot_speed_zero_guard (env : Env) (shots : List ℕ) (total : ℕ) :
    ∀ r ∈ timelineOf total (runStats env shots),
      avgShotSpeed1 r.2 = r.2.player_1_total_shot_speed /
        ((max r.2.player_1_number_of_shots 1 : ℕ) : ℚ) ∧
      avgShotSpeed2 r.2 = r.2.player_2_total_shot_speed /
        ((max r.2.player_2_number_of_shots 1 : ℕ) : ℚ) ∧
      ((max r.2.player_1_number_of_shots 1 : ℕ) : ℚ) ≠ 0 ∧
      ((max r.2.player_2_number_of_shots 1 : ℕ) : ℚ) ≠ 0 ∧
      (r.2.player_1_number_of_shots = 0 → avgShotSpeed1 r.2 = 0) ∧
      (r.2.player_2_number_of_shots = 0 → avgShotSpeed2 r.2 = 0) := by
  intro r hr
  have hzct : zeroCountZeroTotal r.2 :=
    timeline_rows_inv zeroCountZeroTotal zct_zeroFields total _
      (runStats_zct env shots) r hr
  refine ⟨?_, ?_, ?_, ?_, ?_, ?_⟩
  · simp only [avgShotSpeed1, replace_eq_max]
  · simp only [avgShotSpeed2, replace_eq_max]
  · exact Nat.cast_ne_zero.mpr (by have := le_max_right r.2.player_1_number_of_shots 1; omega)
  · exact Nat.cast_ne_zero.mpr (by have := le_max_right r.2.player_2_number_of_shots 1; omega)
  · intro hc
    simp [avgShotSpeed1, hc, hzct.1 hc]
  · intro hc
    simp [avgShotSpeed2, hc, hzct.2 hc]

/-- Witness for C3 at a concrete input: the frame-0 row of the test run's
timeline has zero shot counts and average shot speed exactly 0. -/
theorem avg_shot_speed_zero_guard_wit :
    (0, zeroFields) ∈ timelineOf 6 (runStats cenv cshots) ∧
    (avgShotSpeed1 zeroFields = zeroFields.player_1_total_shot_speed /
        ((max zeroFields.player_1_number_of_shots 1 : ℕ) : ℚ) ∧
      avgShotSpeed2 zeroFields = zeroFields.player_2_total_shot_speed /
        ((max zeroFields.player_2_number_of_shots 1 : ℕ) : ℚ) ∧
      ((max zeroFields.player_1_number_of_shots 1 : ℕ) : ℚ) ≠ 0 ∧
      ((max zeroFields.player_2_number_of_shots 1 : ℕ) : ℚ) ≠ 0 ∧
      (zeroFields.player_1_number_of_shots = 0 → avgShotSpeed1 zeroFields = 0) ∧
      (zeroFields.player_2_number_of_shots = 0 → avgShotSpeed2 zeroFields = 0)) := by
  have hmem : (0, zeroFields) ∈ timelineOf 6 (runStats cenv cshots) := by
    norm_num [timelineOf, mergedRows, ffillRows, runStats, segmentsOf, cshots,
      stepStats, cenv, cenvPlayers, cenvBall, resolveHitter, euclidSq, opponentOf,
      pxToM, FPS, updShot, updMove, initSnapshot, zeroFields, PlayersDict.get,
      List.range_succ]
  exact ⟨hmem, avg_shot_speed_zero_guard cenv cshots 6 (0, zeroFields) hmem⟩

lemma ffillCarry_none (c : StatFields) (f : ℕ) (rest : List (ℕ × Option StatFields)) :
    ffillCarry c ((f, none) :: rest) = ffillCarry c rest := rfl

lemma ffillCarry_some (c : StatFields) (f : ℕ) (st : StatFields)
    (rest : List (ℕ × Option StatFields)) :
    ffillCarry c ((f, some st) :: rest) = ffillCarry st rest := rfl

lemma ffillCarry_append (c : StatFields) (xs ys : List (ℕ × Option StatFields)) :
    ffillCarry c (xs ++ ys) = ffillCarry (ffillCarry c xs) ys := by
  unfold ffillCarry
  rw [List.foldl_append]

lemma ffillRows_append (c : StatFields) (xs ys : List (ℕ × Option StatFields)) :
    ffillRows c (xs ++ ys) = ffillRows c xs ++ ffillRows (ffillCarry c xs) ys := by
  induction xs generalizing c with
  | nil =>
    simp [ffillRows, ffillCarry]
  | cons p rest ih =>
    obtain ⟨f, op⟩ := p
    cases op with
    | none =>
      rw [List.cons_append,
        show ffillRows c ((f, none) :: (rest ++ ys)) =
          (f, c) :: ffillRows c (rest ++ ys) from rfl,
        show ffillRows c ((f, none) :: rest) = (f, c) :: ffillRows c rest from rfl,
        ffillCarry_none, ih, List.cons_append]
    | some st =>
      rw [List.cons_append,
        show ffillRows c ((f, some st) :: (rest ++ ys)) =
          (f, st) :: ffillRows st (rest ++ ys) from rfl,
        show ffillRows c ((f, some st) :: rest) = (f, st) :: ffillRows st rest from rfl,
        ffillCarry_some, ih, List.cons_append]

lemma latestBelow_zero (c : StatFields) (l : List Snapshot) : latestBelow c l 0 = c := by
  induction l generalizing c with
  | nil => rfl
  | cons s rest ih => simp [latestBelow, ih]

lemma latestBelow_succ (c : StatFields) (l : List Snapshot) (n : ℕ) :
    latestBelow c l (n + 1) = latestAtOrBefore c l n := by
  induction l generalizing c with
  | nil => rfl
  | cons s rest ih =>
    simp only [latestBelow, latestAtOrBefore, Nat.lt_succ_iff]
    split_ifs
    · exact ih s.stats
    · exact ih c

lemma latestAtOrBefore_of_none_at (c : StatFields) (l : List Snapshot) (n : ℕ)
    (h : ∀ s ∈ l, s.frame_num ≠ n) :
    latestAtOrBefore c l n = latestBelow c l n := by
  induction l generalizing c with
  | nil => rfl
  | cons s rest ih =>
    have hne := h s (List.mem_cons_self s rest)
    have hrest := fun x hx => h x (List.mem_cons_of_mem s hx)
    simp only [latestAtOrBefore, latestBelow]
    by_cases hc : s.frame_num ≤ n
    · rw [if_pos hc, if_pos (lt_of_le_of_ne hc hne), ih s.stats hrest]
    · rw [if_neg hc, if_neg (fun hlt => hc (le_of_lt hlt)), ih c hrest]

lemma latestAtOrBefore_of_all_gt (c : StatFields) (l : List Snapshot) (n : ℕ)
    (h : ∀ s ∈ l, n < s.frame_num) :
    latestAtOrBefore c l n = c := by
  induction l generalizing c with
  | nil => rfl
  | cons s rest ih =>
    simp only [latestAtOrBefore]
    rw [if_neg (not_le.mpr (h s (List.mem_cons_self s rest)))]
    exact ih c (fun x hx => h x (List.mem_cons_of_mem s hx))

lemma latestAtOrBefore_of_mem (c : StatFields) (l : List Snapshot) (s : Snapshot) (n : ℕ)
    (hpair : l.Pairwise (fun a b => a.frame_num < b.frame_num))
    (hmem : s ∈ l) (hfr : s.frame_num = n) :
    latestAtOrBefore c l n = s.stats := by
  induction l generalizing c with
  | nil => cases hmem
  | cons t rest ih =>
    rcases List.mem_cons.mp hmem with h | h
    · subst h
      simp only [latestAtOrBefore]
      rw [if_pos (le_of_eq hfr)]
      exact latestAtOrBefore_of_all_gt _ _ _
        (fun x hx => hfr ▸ (List.pairwise_cons.mp hpair).1 x hx)
    · have htail := (List.pairwise_cons.mp hpair).2
      simp only [latestAtOrBefore]
      by_cases ht : t.frame_num ≤ n
      · rw [if_pos ht]; exact ih t.stats htail h
      · rw [if_neg ht]; exact ih c htail h

lemma mergedRows_succ (total : ℕ) (snaps : List Snapshot) :
    mergedRows (total + 1) snaps = mergedRows total snaps ++
      (match (snaps.filter (fun s => s.frame_num = total)).map Snapshot.stats with
       | [] => [(total, none)]
       | ms => ms.map (fun st => (total, some st))) := by
  unfold mergedRows
  rw [List.range_succ, List.flatMap_append]
  simp

lemma timelineOf_spec (snaps : List Snapshot)
    (hpair : snaps.Pairwise (fun a b => a.frame_num < b.frame_num)) :
    ∀ total : ℕ,
      timelineOf total snaps =
        (List.range total).map (fun f => (f, latestAtOrBefore zeroFields snaps f)) ∧
      ffillCarry zeroFields (mergedRows total snaps) = latestBelow zeroFields snaps total := by
  intro total
  induction total with
  | zero =>
    constructor
    · rfl
    · simpa [mergedRows, ffillCarry] using (latestBelow_zero zeroFields snaps).symm
  | succ n ih =>
    obtain ⟨ih1, ih2⟩ := ih
    have e1 : timelineOf (n + 1) snaps = timelineOf n snaps ++
        ffillRows (ffillCarry zeroFields (mergedRows n snaps))
          (match (snaps.filter (fun s => s.frame_num = n)).map Snapshot.stats with
           | [] => [(n, none)]
           | ms => ms.map (fun st => (n, some st))) := by
      unfold timelineOf
      rw [mergedRows_succ, ffillRows_append]
    have e2 : ffillCarry zeroFields (mergedRows (n + 1) snaps) =
        ffillCarry (ffillCarry zeroFields (mergedRows n snaps))
          (match (snaps.filter (fun s => s.frame_num = n)).map Snapshot.stats with
           | [] => [(n, none)]
           | ms => ms.map (fun st => (n, some st))) := by
      rw [mergedRows_succ, ffillCarry_append]
    cases hfl : snaps.filter (fun s => s.frame_num = n) with
    | nil =>
      have hnone : ∀ s ∈ snaps, s.frame_num ≠ n := by
        intro s hs hsn
        have hmem : s ∈ snaps.filter (fun s => s.frame_num = n) :=
          List.mem_filter.mpr ⟨hs, by simp [hsn]⟩
        rw [hfl] at hmem
        cases hmem
      have hsame : latestAtOrBefore zeroFields snaps n = latestBelow zeroFields snaps n :=
        latestAtOrBefore_of_none_at zeroFields snaps n hnone
      constructor
      · rw [e1, ih1, hfl]
        simp only [List.map_nil]
        rw [show ffillRows (ffillCarry zeroFields (mergedRows n snaps))
            (match ([] : List StatFields) with
             | [] => [(n, (none : Option StatFields))]
             | ms => ms.map (fun st => (n, some st))) =
          [(n, ffillCarry zeroFields (mergedRows n snaps))] from rfl]
        rw [ih2, List.range_succ, List.map_append]
        simp [hsame]
      · rw [e2, hfl]
        simp only [List.map_nil]
        rw [show ffillCarry (ffillCarry zeroFields (mergedRows n snaps))
            (match ([] : List StatFields) with
             | [] => [(n, (none : Option StatFields))]
             | ms => ms.map (fun st => (n, some st))) =
          ffillCarry zeroFields (mergedRows n snaps) from rfl]
        rw [ih2, latestBelow_succ, hsame]
    | cons s1 tl =>
      cases tl with
      | cons s2 tl2 =>
        exfalso
        have hpf : (snaps.filter (fun s => s.frame_num = n)).Pairwise
            (fun a b => a.frame_num < b.frame_num) := hpair.filter _
        rw [hfl] at hpf
        have h12 : s1.frame_num < s2.frame_num :=
          (List.pairwise_cons.mp hpf).1 s2 (List.mem_cons_self s2 tl2)
        have hm1 : s1 ∈ snaps.filter (fun s => s.frame_num = n) := by
          rw [hfl]; exact List.mem_cons_self _ _
        have hm2 : s2 ∈ snaps.filter (fun s => s.frame_num = n) := by
          rw [hfl]; exact List.mem_cons_of_mem _ (List.mem_cons_self _ _)
        have h1n : s1.frame_num = n := by simpa using List.of_mem_filter hm1
        have h2n : s2.frame_num = n := by simpa using List.of_mem_filter hm2
        omega
      | nil =>
        have hm1 : s1 ∈ snaps.filter (fun s => s.frame_num = n) := by
          rw [hfl]; exact List.mem_cons_self _ _
        have h1mem : s1 ∈ snaps := List.mem_of_mem_filter hm1
        have h1n : s1.frame_num = n := by simpa using List.of_mem_filter hm1
        have hlat : latestAtOrBefore zeroFields snaps n = s1.stats :=
          latestAtOrBefore_of_mem zeroFields snaps s1 n hpair h1mem h1n
        constructor
        · rw [e1, ih1, hfl]
          simp only [List.map_cons, List.map_nil]
          rw [show ffillRows (ffillCarry zeroFields (mergedRows n snaps))
              [(n, some s1.stats)] = [(n, s1.stats)] from rfl]
          rw [List.range_succ, List.map_append]
          simp [hlat]
        · rw [e2, hfl]
          simp only [List.map_cons, List.map_nil]
          rw [show ffillCarry (ffillCarry zeroFields (mergedRows n snaps))
              [(n, some s1.stats)] = s1.stats from rfl]
          rw [latestBelow_succ, hlat]

lemma foldl_stepStats_prefix (env : Env) :
    ∀ (segs : List (ℕ × ℕ)) (acc : List Snapshot),
      ∃ ext, List.foldl (stepStats env) acc segs = acc ++ ext := by
  intro segs
  induction segs with
  | nil => intro acc; exact ⟨[], by simp⟩
  | cons seg rest ih =>
    intro acc
    rcases stepStats_cases env acc seg with ⟨heq, -⟩ | ⟨hitter, bspd, ospd, -, -, heq⟩
    · obtain ⟨ext, hext⟩ := ih (stepStats env acc seg)
      exact ⟨ext, by rw [List.foldl_cons, hext, heq]⟩
    · obtain ⟨ext, hext⟩ := ih (stepStats env acc seg)
      refine ⟨[⟨seg.1, updMove (updShot (acc.getLastD initSnapshot).stats hitter bspd)
        (opponentOf hitter) ospd⟩] ++ ext, ?_⟩
      rw [List.foldl_cons, hext, heq, List.append_assoc]

lemma runStats_head (env : Env) (shots : List ℕ) :
    ∃ rest, runStats env shots = initSnapshot :: rest := by
  obtain ⟨ext, hext⟩ := foldl_stepStats_prefix env (segmentsOf shots) [initSnapshot]
  exact ⟨ext, by rw [runStats, hext]; rfl⟩

lemma segmentsOf_chain (shots : List ℕ) (h : List.Chain' (· < ·) shots) :
    List.Chain' (fun a b : ℕ × ℕ => a.1 < b.1) (segmentsOf shots) := by
  induction shots with
  | nil => simp [segmentsOf]
  | cons a rest ih =>
    cases rest with
    | nil => simp [segmentsOf]
    | cons b rest2 =>
      have hs : segmentsOf (a :: b :: rest2) = (a, b) :: segmentsOf (b :: rest2) := rfl
      rw [hs]
      have hab : a < b := (List.chain'_cons.mp h).1
      have htail : List.Chain' (· < ·) (b :: rest2) := (List.chain'_cons.mp h).2
      rw [List.chain'_cons']
      refine ⟨?_, ih htail⟩
      intro y hy
      cases rest2 with
      | nil => simp [segmentsOf] at hy
      | cons c rest3 =>
        have : (segmentsOf (b :: c :: rest3)).head? = some (b, c) := rfl
        rw [this] at hy
        cases hy
        exact hab

lemma segmentsOf_pairwise (shots : List ℕ) (h : List.Chain' (· < ·) shots) :
    List.Pairwise (fun a b : ℕ × ℕ => a.1 < b.1) (segmentsOf shots) := by
  haveI : IsTrans (ℕ × ℕ) (fun a b : ℕ × ℕ => a.1 < b.1) :=
    ⟨fun _ _ _ hab hbc => lt_trans hab hbc⟩
  exact List.chain'_iff_pairwise.mp (segmentsOf_chain shots h)

lemma segmentsOf_mem_first {shots : List ℕ} {seg : ℕ × ℕ}
    (h : seg ∈ segmentsOf shots) : seg.1 ∈ shots := by
  obtain ⟨a, b⟩ := seg
  exact (List.of_mem_zip h).1

lemma runStats_pairwise (env : Env) (shots : List ℕ)
    (hchain : List.Chain' (· < ·) shots) (hpos : ∀ x ∈ shots, 0 < x) :
    (runStats env shots).Pairwise (fun a b => a.frame_num < b.frame_num) := by
  have key : ∀ (segs : List (ℕ × ℕ)) (acc : List Snapshot),
      acc.Pairwise (fun a b => a.frame_num < b.frame_num) →
      segs.Pairwise (fun a b : ℕ × ℕ => a.1 < b.1) →
      (∀ s ∈ acc, ∀ seg ∈ segs, s.frame_num < seg.1) →
      (List.foldl (stepStats env) acc segs).Pairwise
        (fun a b => a.frame_num < b.frame_num) := by
    intro segs
    induction segs with
    | nil => intro acc hacc _ _; simpa using hacc
    | cons seg rest ih =>
      intro acc hacc hsegs hcross
      rw [List.foldl_cons]
      rcases stepStats_cases env acc seg with ⟨heq, -⟩ | ⟨hitter, bspd, ospd, -, -, heq⟩
      · rw [heq]
        exact ih acc hacc (List.pairwise_cons.mp hsegs).2
          (fun s hs seg' hseg' => hcross s hs seg' (List.mem_cons_of_mem seg hseg'))
      · rw [heq]
        apply ih
        · rw [List.pairwise_append]
          refine ⟨hacc, List.pairwise_singleton _ _, ?_⟩
          intro s hs x hx
          rw [List.mem_singleton.mp hx]
          exact hcross s hs seg (List.mem_cons_self seg rest)
        · exact (List.pairwise_cons.mp hsegs).2
        · intro s hs seg' hseg'
          rcases List.mem_append.mp hs with h1 | h2
          · exact hcross s h1 seg' (List.mem_cons_of_mem seg hseg')
          · rw [List.mem_singleton.mp h2]
            exact (List.pairwise_cons.mp hsegs).1 seg' hseg'
  apply key (segmentsOf shots) [initSnapshot] (List.pairwise_singleton _ _)
    (segmentsOf_pairwise shots hchain)
  intro s hs seg hseg
  rw [List.mem_singleton.mp hs]
  exact hpos seg.1 (segmentsOf_mem_first hseg)

/-- C2 (amended): provided every shot frame is positive — so that no
processed segment's snapshot shares the initial row's merge key 0 — the
merged and forward-filled per-frame timeline is dense over `[0, total)`:
it has exactly `total` rows, the row at position `f` carries frame index
`f` and the statistics of the most recently emitted snapshot at or before
`f`, and a frame before every appended snapshot carries the all-zero
statistics.  Without the positivity proviso the claim fails: a valid
segment starting at frame 0 duplicates merge key 0 and the timeline gains
an extra row (see `timeline_dense_counterexample`). -/
theorem timeline_forward_fill_dense (env : Env) (shots : List ℕ) (total : ℕ)
    (hchain : List.Chain' (· < ·) shots) (hpos : ∀ x ∈ shots, 0 < x) :
    (timelineOf total (runStats env shots)).length = total ∧
    (∀ f, f < total → (timelineOf total (runStats env shots))[f]? =
      some (f, latestAtOrBefore zeroFields (runStats env shots) f)) ∧
    (∀ f, f < total →
      (∀ s, s ∈ (runStats env shots).tail → f < s.frame_num) →
      latestAtOrBefore zeroFields (runStats env shots) f = zeroFields) := by
  have hpair := runStats_pairwise env shots hchain hpos
  have hspec := (timelineOf_spec (runStats env shots) hpair total).1
  refine ⟨?_, ?_, ?_⟩
  · rw [hspec]
    simp
  · intro f hf
    rw [hspec]
    rw [List.getElem?_map, List.getElem?_range hf]
    rfl
  · intro f hf htail
    obtain ⟨rest, hrest⟩ := runStats_head env shots
    rw [hrest]
    simp only [latestAtOrBefore, initSnapshot]
    rw [if_pos (Nat.zero_le f)]
    apply latestAtOrBefore_of_all_gt
    intro s hs
    apply htail
    rw [hrest]
    exact hs

/-- Witness for C2 at a concrete input: the four-shot test run over a
six-frame video has a six-row timeline. -/
theorem timeline_forward_fill_dense_wit :
    List.Chain' (· < ·) cshots ∧ (∀ x ∈ cshots, 0 < x) ∧
    ((timelineOf 6 (runStats cenv cshots)).length = 6 ∧
     (∀ f, f < 6 → (timelineOf 6 (runStats cenv cshots))[f]? =
       some (f, latestAtOrBefore zeroFields (runStats cenv cshots) f)) ∧
     (∀ f, f < 6 →
       (∀ s, s ∈ (runStats cenv cshots).tail → f < s.frame_num) →
       latestAtOrBefore zeroFields (runStats cenv cshots) f = zeroFields)) :=
  ⟨by norm_num [cshots, List.chain'_cons], by decide,
   timeline_forward_fill_dense cenv cshots 6 (by norm_num [cshots, List.chain'_cons])
     (by decide)⟩

/-- Counterexample to C2 as stated: with the spec-sanctioned shot list
`[0, 1]` the segment `(0, 1)` is valid, its snapshot carries merge key 0
like the initial all-zero row, and the pandas left-merge duplicates that
key: the timeline of a 3-frame video has 4 rows whose frame column reads
`[0, 0, 1, 2]`, so the per-frame timeline is not dense over `[0, 3)` and
positional frame lookups misalign. -/
theorem timeline_dense_counterexample :
    validSeg zenv (0, 1) = true ∧
    segmentsOf [0, 1] = [(0, 1)] ∧
    (timelineOf 3 (runStats zenv [0, 1])).length = 4 ∧
    (timelineOf 3 (runStats zenv [0, 1])).map Prod.fst = [0, 0, 1, 2] := by
  refine ⟨?_, rfl, ?_, ?_⟩ <;>
    norm_num [validSeg, timelineOf, mergedRows, ffillRows, runStats, segmentsOf,
      stepStats, zenv, zenvPlayers, zenvBall, resolveHitter, euclidSq, opponentOf,
      pxToM, FPS, updShot, updMove, initSnapshot, zeroFields, PlayersDict.get,
      List.range_succ]

lemma sumShots_upd (st : StatFields) (hitter : ℕ) (hmem : hitter = 1 ∨ hitter = 2)
    (b o : ℚ) :
    sumShots (updMove (updShot st hitter b) (opponentOf hitter) o) = sumShots st + 1 := by
  rcases hmem with h | h <;> subst h <;>
    simp [sumShots, updShot, updMove, opponentOf] <;> omega

lemma foldl_count (env : Env) :
    ∀ (segs : List (ℕ × ℕ)) (acc : List Snapshot),
      sumShots (((List.foldl (stepStats env) acc segs).getLastD initSnapshot).stats) =
      sumShots ((acc.getLastD initSnapshot).stats) +
        (segs.filter (validSeg env)).length := by
  intro segs
  induction segs with
  | nil => intro acc; simp
  | cons seg rest ih =>
    intro acc
    rw [List.foldl_cons, List.filter_cons]
    rcases stepStats_cases env acc seg with ⟨heq, hval⟩ | ⟨hitter, bspd, ospd, hmem, hval, heq⟩
    · rw [heq, hval, ih acc]
      simp
    · rw [heq, hval, ih]
      rw [List.getLastD_concat]
      rw [show Snapshot.stats ⟨seg.1, updMove (updShot (acc.getLastD initSnapshot).stats
          hitter bspd) (opponentOf hitter) ospd⟩ =
        updMove (updShot (acc.getLastD initSnapshot).stats hitter bspd)
          (opponentOf hitter) ospd from rfl]
      rw [sumShots_upd _ _ hmem]
      rw [if_pos rfl, List.length_cons]
      omega

lemma runStats_frames (env : Env) (shots : List ℕ) :
    ∀ s ∈ runStats env shots,
      s.frame_num = 0 ∨ ∃ seg ∈ segmentsOf shots, s.frame_num = seg.1 := by
  have key : ∀ (segs : List (ℕ × ℕ)) (acc : List Snapshot),
      (∀ seg ∈ segs, seg ∈ segmentsOf shots) →
      (∀ s ∈ acc, s.frame_num = 0 ∨ ∃ seg ∈ segmentsOf shots, s.frame_num = seg.1) →
      ∀ s ∈ List.foldl (stepStats env) acc segs,
        s.frame_num = 0 ∨ ∃ seg ∈ segmentsOf shots, s.frame_num = seg.1 := by
    intro segs
    induction segs with
    | nil => intro acc _ hacc; simpa using hacc
    | cons seg rest ih =>
      intro acc hsub hacc
      rw [List.foldl_cons]
      rcases stepStats_cases env acc seg with ⟨heq, -⟩ | ⟨hitter, bspd, ospd, -, -, heq⟩
      · rw [heq]
        exact ih acc (fun g hg => hsub g (List.mem_cons_of_mem seg hg)) hacc
      · rw [heq]
        apply ih
        · exact fun g hg => hsub g (List.mem_cons_of_mem seg hg)
        · intro s hs
          rcases List.mem_append.mp hs with h1 | h2
          · exact hacc s h1
          · rw [List.mem_singleton.mp h2]
            exact Or.inr ⟨seg, hsub seg (List.mem_cons_self seg rest), rfl⟩
  intro s hs
  refine key (segmentsOf shots) [initSnapshot] (fun g hg => hg) ?_ s hs
  intro s' hs'
  rw [List.mem_singleton.mp hs']
  exact Or.inl rfl

lemma latestAtOrBefore_all_le (c : StatFields) (l : List Snapshot) (f : ℕ)
    (h : ∀ s ∈ l, s.frame_num ≤ f) :
    latestAtOrBefore c l f = (l.map Snapshot.stats).getLastD c := by
  induction l generalizing c with
  | nil => rfl
  | cons s rest ih =>
    simp only [latestAtOrBefore, List.map_cons, List.getLastD_cons]
    rw [if_pos (h s (List.mem_cons_self s rest))]
    exact ih s.stats (fun x hx => h x (List.mem_cons_of_mem s hx))

lemma map_stats_getLastD (l : List Snapshot) (d : Snapshot) :
    (l.map Snapshot.stats).getLastD d.stats = (l.getLastD d).stats := by
  induction l generalizing d with
  | nil => rfl
  | cons s rest ih =>
    simp only [List.map_cons, List.getLastD_cons]
    exact ih s

lemma runStats_sorted_le (env : Env) (shots : List ℕ)
    (hchain : List.Chain' (· < ·) shots) :
    (runStats env shots).Pairwise (fun a b => a.frame_num ≤ b.frame_num) := by
  have key : ∀ (segs : List (ℕ × ℕ)) (acc : List Snapshot),
      acc.Pairwise (fun a b => a.frame_num ≤ b.frame_num) →
      segs.Pairwise (fun a b : ℕ × ℕ => a.1 < b.1) →
      (∀ s ∈ acc, ∀ seg ∈ segs, s.frame_num ≤ seg.1) →
      (List.foldl (stepStats env) acc segs).Pairwise
        (fun a b => a.frame_num ≤ b.frame_num) := by
    intro segs
    induction segs with
    | nil => intro acc hacc _ _; simpa using hacc
    | cons seg rest ih =>
      intro acc hacc hsegs hcross
      rw [List.foldl_cons]
      rcases stepStats_cases env acc seg with ⟨heq, -⟩ | ⟨hitter, bspd, ospd, -, -, heq⟩
      · rw [heq]
        exact ih acc hacc (List.pairwise_cons.mp hsegs).2
          (fun s hs seg' hseg' => hcross s hs seg' (List.mem_cons_of_mem seg hseg'))
      · rw [heq]
        apply ih
        · rw [List.pairwise_append]
          refine ⟨hacc, List.pairwise_singleton _ _, ?_⟩
          intro s hs x hx
          rw [List.mem_singleton.mp hx]
          exact hcross s hs seg (List.mem_cons_self seg rest)
        · exact (List.pairwise_cons.mp hsegs).2
        · intro s hs seg' hseg'
          rcases List.mem_append.mp hs with h1 | h2
          · exact hcross s h1 seg' (List.mem_cons_of_mem seg hseg')
          · rw [List.mem_singleton.mp h2]
            exact le_of_lt ((List.pairwise_cons.mp hsegs).1 seg' hseg')
  apply key (segmentsOf shots) [initSnapshot] (List.pairwise_singleton _ _)
    (segmentsOf_pairwise shots hchain)
  intro s hs seg _
  rw [List.mem_singleton.mp hs]
  exact Nat.zero_le _

lemma ffillRows_getLast (rows : List (ℕ × Option StatFields)) :
    ∀ c : StatFields, rows ≠ [] →
      ∃ f, (ffillRows c rows).getLast? = some (f, ffillCarry c rows) := by
  induction rows with
  | nil => intro c h; exact absurd rfl h
  | cons p rest ih =>
    intro c _
    obtain ⟨f0, op⟩ := p
    cases rest with
    | nil =>
      cases op with
      | none => exact ⟨f0, rfl⟩
      | some st => exact ⟨f0, rfl⟩
    | cons q rest2 =>
      have hne2 : (q :: rest2 : List (ℕ × Option StatFields)) ≠ [] :=
        List.cons_ne_nil _ _
      have htl : ∀ c' : StatFields, ffillRows c' (q :: rest2) ≠ [] := by
        intro c'
        obtain ⟨fq, oq⟩ := q
        cases oq <;> exact List.cons_ne_nil _ _
      cases op with
      | none =>
        obtain ⟨f, hf⟩ := ih c hne2
        refine ⟨f, ?_⟩
        rw [show ffillRows c ((f0, none) :: q :: rest2) =
          (f0, c) :: ffillRows c (q :: rest2) from rfl, ffillCarry_none]
        rw [← hf]
        cases hl : ffillRows c (q :: rest2) with
        | nil => exact absurd hl (htl c)
        | cons y ys => rw [List.getLast?_cons_cons]
      | some st =>
        obtain ⟨f, hf⟩ := ih st hne2
        refine ⟨f, ?_⟩
        rw [show ffillRows c ((f0, some st) :: q :: rest2) =
          (f0, st) :: ffillRows st (q :: rest2) from rfl, ffillCarry_some]
        rw [← hf]
        cases hl : ffillRows st (q :: rest2) with
        | nil => exact absurd hl (htl st)
        | cons y ys => rw [List.getLast?_cons_cons]

lemma mergedRows_ne_nil (total : ℕ) (snaps : List Snapshot) (htot : 0 < total) :
    mergedRows total snaps ≠ [] := by
  obtain ⟨n, rfl⟩ : ∃ n, total = n + 1 := ⟨total - 1, by omega⟩
  rw [mergedRows_succ]
  intro h
  rcases List.append_eq_nil.mp h with ⟨-, h2⟩
  revert h2
  cases hfl : (snaps.filter (fun s => s.frame_num = n)).map Snapshot.stats with
  | nil => intro h2; simp at h2
  | cons a as => intro h2; simp at h2

lemma ffillCarry_map_some (c : StatFields) (n : ℕ) (l : List StatFields) :
    ffillCarry c (l.map (fun st => (n, some st))) = l.getLastD c := by
  induction l generalizing c with
  | nil => rfl
  | cons st rest ih => rw [List.map_cons, ffillCarry_some, ih, List.getLastD_cons]

lemma getLastD_irrel (l : List Snapshot) (hne : l ≠ []) (a b : Snapshot) :
    l.getLastD a = l.getLastD b := by
  cases l with
  | nil => exact absurd rfl hne
  | cons x xs => rw [List.getLastD_cons, List.getLastD_cons]

lemma latestAtOrBefore_filter_last (c : StatFields) (snaps : List Snapshot) (n : ℕ)
    (hsort : snaps.Pairwise (fun a b => a.frame_num ≤ b.frame_num))
    (hne : snaps.filter (fun x => x.frame_num = n) ≠ []) :
    latestAtOrBefore c snaps n =
      ((snaps.filter (fun x => x.frame_num = n)).getLastD initSnapshot).stats := by
  induction snaps generalizing c with
  | nil => exact absurd rfl hne
  | cons t rest ih =>
    have hsort' := (List.pairwise_cons.mp hsort).2
    by_cases htn : t.frame_num = n
    · have hflc : (t :: rest).filter (fun x => x.frame_num = n) =
          t :: rest.filter (fun x => x.frame_num = n) := by
        rw [List.filter_cons]
        simp [htn]
      by_cases hrest : rest.filter (fun x => x.frame_num = n) = []
      · have hgt : ∀ x ∈ rest, n < x.frame_num := by
          intro x hx
          have hge : t.frame_num ≤ x.frame_num := (List.pairwise_cons.mp hsort).1 x hx
          have hneq : x.frame_num ≠ n := by
            intro he
            have hmem : x ∈ rest.filter (fun x => x.frame_num = n) :=
              List.mem_filter.mpr ⟨hx, by simp [he]⟩
            rw [hrest] at hmem
            cases hmem
          omega
        rw [show latestAtOrBefore c (t :: rest) n =
            latestAtOrBefore t.stats rest n from by
          simp only [latestAtOrBefore]; rw [if_pos (le_of_eq htn)]]
        rw [latestAtOrBefore_of_all_gt _ _ _ hgt, hflc, hrest, List.getLastD_cons]
        rfl
      · rw [show latestAtOrBefore c (t :: rest) n =
            latestAtOrBefore t.stats rest n from by
          simp only [latestAtOrBefore]; rw [if_pos (le_of_eq htn)]]
        rw [ih t.stats hsort' hrest, hflc, List.getLastD_cons]
        rw [getLastD_irrel _ hrest initSnapshot t]
    · have hflc : (t :: rest).filter (fun x => x.frame_num = n) =
          rest.filter (fun x => x.frame_num = n) := by
        rw [List.filter_cons]
        simp [htn]
      have hne' : rest.filter (fun x => x.frame_num = n) ≠ [] := by
        rw [← hflc]; exact hne
      rw [hflc]
      by_cases hle : t.frame_num ≤ n
      · rw [show latestAtOrBefore c (t :: rest) n =
            latestAtOrBefore t.stats rest n from by
          simp only [latestAtOrBefore]; rw [if_pos hle]]
        exact ih t.stats hsort' hne'
      · rw [show latestAtOrBefore c (t :: rest) n =
            latestAtOrBefore c rest n from by
          simp only [latestAtOrBefore]; rw [if_neg hle]]
        exact ih c hsort' hne'

lemma mergedRows_carry (snaps : List Snapshot)
    (hsort : snaps.Pairwise (fun a b => a.frame_num ≤ b.frame_num)) :
    ∀ total, ffillCarry zeroFields (mergedRows total snaps) =
      latestBelow zeroFields snaps total := by
  intro total
  induction total with
  | zero => simpa [mergedRows, ffillCarry] using (latestBelow_zero zeroFields snaps).symm
  | succ n ih =>
    rw [mergedRows_succ, ffillCarry_append, ih]
    cases hfl : snaps.filter (fun s => s.frame_num = n) with
    | nil =>
      have hnone : ∀ s ∈ snaps, s.frame_num ≠ n := by
        intro s hs hsn
        have hmem : s ∈ snaps.filter (fun s => s.frame_num = n) :=
          List.mem_filter.mpr ⟨hs, by simp [hsn]⟩
        rw [hfl] at hmem
        cases hmem
      simp only [List.map_nil]
      rw [show ffillCarry (latestBelow zeroFields snaps n)
          (match ([] : List StatFields) with
           | [] => [(n, (none : Option StatFields))]
           | ms => ms.map (fun st => (n, some st))) =
        latestBelow zeroFields snaps n from rfl]
      rw [latestBelow_succ, latestAtOrBefore_of_none_at _ _ _ hnone]
    | cons s tl =>
      simp only [List.map_cons]
      rw [ffillCarry_some, ffillCarry_map_some]
      rw [latestBelow_succ]
      rw [latestAtOrBefore_filter_last zeroFields snaps n hsort
        (by rw [hfl]; exact List.cons_ne_nil _ _)]
      rw [hfl]
      rw [List.getLastD_cons, map_stats_getLastD]

lemma latestBelow_all_lt (c : StatFields) (l : List Snapshot) (n : ℕ)
    (h : ∀ s ∈ l, s.frame_num < n) :
    latestBelow c l n = (l.map Snapshot.stats).getLastD c := by
  induction l generalizing c with
  | nil => rfl
  | cons s rest ih =>
    simp only [latestBelow, List.map_cons, List.getLastD_cons]
    rw [if_pos (h s (List.mem_cons_self s rest))]
    exact ih s.stats (fun x hx => h x (List.mem_cons_of_mem s hx))

/-- C9: the aggregate summary's `total_shots` equals the number of valid,
non-skipped segments — those for which a shot was attributed — and equals
the sum of the two players' final shot counts.  The hypotheses state the
ShotEvent contract (strictly increasing, in-range shot frames over a
nonempty video); a first shot at frame 0 is allowed. -/
theorem total_shots_eq_valid_segments (env : Env) (shots : List ℕ) (total : ℕ)
    (hchain : List.Chain' (· < ·) shots)
    (hlt : ∀ x ∈ shots, x < total) (htot : 0 < total) :
    (buildBiomech env shots total).total_shots =
      ((segmentsOf shots).filter (validSeg env)).length ∧
    (buildBiomech env shots total).total_shots =
      (buildBiomech env shots total).player_1_shots +
        (buildBiomech env shots total).player_2_shots := by
  have hmain : (buildBiomech env shots total).total_shots =
      ((segmentsOf shots).filter (validSeg env)).length := by
    have hsort := runStats_sorted_le env shots hchain
    have hlt' : ∀ s ∈ runStats env shots, s.frame_num < total := by
      intro s hs
      rcases runStats_frames env shots s hs with h0 | ⟨seg, hseg, hfr⟩
      · omega
      · have hx := hlt seg.1 (segmentsOf_mem_first hseg)
        omega
    have hne := mergedRows_ne_nil total (runStats env shots) htot
    obtain ⟨f, hlast⟩ := ffillRows_getLast (mergedRows total (runStats env shots))
      zeroFields hne
    have hcarry := mergedRows_carry (runStats env shots) hsort total
    have hbelow := latestBelow_all_lt zeroFields (runStats env shots) total hlt'
    have hfold : ((runStats env shots).map Snapshot.stats).getLastD zeroFields =
        ((runStats env shots).getLastD initSnapshot).stats :=
      map_stats_getLastD (runStats env shots) initSnapshot
    have hcount := foldl_count env (segmentsOf shots) [initSnapshot]
    unfold buildBiomech
    dsimp only
    unfold timelineOf
    rw [hlast]
    simp only [Option.map_some', Option.getD_some]
    rw [hcarry, hbelow, hfold]
    have hrs : runStats env shots = List.foldl (stepStats env) [initSnapshot]
      (segmentsOf shots) := rfl
    rw [hrs]
    have h0 : sumShots ((([initSnapshot] : List Snapshot).getLastD initSnapshot).stats) = 0 := rfl
    rw [h0] at hcount
    unfold sumShots at hcount
    omega
  exact ⟨hmain, rfl⟩

/-- Witness for C9 at a concrete input with a shot at frame 0: the run over
`zenv` attributes its single valid segment `(0, 1)`, and the summary reports
1 total shot equal to the sum of the per-player counts. -/
theorem total_shots_eq_valid_segments_wit :
    List.Chain' (· < ·) [0, 1] ∧ (∀ x ∈ ([0, 1] : List ℕ), x < 3) ∧ (0 < 3) ∧
    ((buildBiomech zenv [0, 1] 3).total_shots =
      ((segmentsOf [0, 1]).filter (validSeg zenv)).length ∧
     (buildBiomech zenv [0, 1] 3).total_shots =
      (buildBiomech zenv [0, 1] 3).player_1_shots +
        (buildBiomech zenv [0, 1] 3).player_2_shots) :=
  ⟨by norm_num [List.chain'_cons], by decide, by decide,
   total_shots_eq_valid_segments zenv [0, 1] 3
     (by norm_num [List.chain'_cons]) (by decide) (by decide)⟩

/-- Counterexample to C8: with an empty ShotEvent list the engine does not
abort — both statistics loops run zero iterations, the six-frame timeline is
fully produced and a complete summary with `total_shots = 0` is returned,
so the caller receives a statistics summary rather than an error payload. -/
theorem empty_shots_counterexample :
    runStats cenv [] = [initSnapshot] ∧
    runRecovery cenv [] = [] ∧
    (timelineOf 6 (runStats cenv [])).length = 6 ∧
    buildBiomech cenv [] 6 =
      { total_shots := 0, player_1_shots := 0, player_2_shots := 0,
        total_frames := 6, duration_seconds := 1 / 4 } := by
  refine ⟨rfl, rfl, ?_, ?_⟩
  · norm_num [timelineOf, mergedRows, ffillRows, List.range_succ, runStats,
      segmentsOf, initSnapshot, zeroFields]
  · norm_num [buildBiomech, timelineOf, mergedRows, ffillRows, List.range_succ,
      runStats, segmentsOf, initSnapshot, zeroFields, FPS]

/-- C8 (amended): if the ShotEvent list is empty the run is not aborted: no
segment is processed, the recovery map is empty, the dense timeline is
produced with every row all-zero, and the engine returns a complete summary
with zero shots for both players and the derived duration — the caller
receives this summary, not an error payload. -/
theorem empty_shots_zero_summary (env : Env) (total : ℕ) :
    runStats env [] = [initSnapshot] ∧
    runRecovery env [] = [] ∧
    (timelineOf total (runStats env [])).length = total ∧
    (∀ r ∈ timelineOf total (runStats env []), r.2 = zeroFields) ∧
    (buildBiomech env [] total).total_shots = 0 ∧
    (buildBiomech env [] total).player_1_shots = 0 ∧
    (buildBiomech env [] total).player_2_shots = 0 ∧
    (buildBiomech env [] total).duration_seconds = (total : ℚ) / FPS := by
  have hrs : runStats env [] = [initSnapshot] := rfl
  have hpair : ([initSnapshot] : List Snapshot).Pairwise
      (fun a b => a.frame_num < b.frame_num) := List.pairwise_singleton _ _
  have hspec := (timelineOf_spec [initSnapshot] hpair total).1
  have hlat : ∀ f : ℕ, latestAtOrBefore zeroFields [initSnapshot] f = zeroFields := by
    intro f
    simp only [latestAtOrBefore, initSnapshot]
    rw [if_pos (Nat.zero_le f)]
  have hfin : (Option.map Prod.snd
      (timelineOf total (runStats env [])).getLast?).getD zeroFields = zeroFields := by
    cases total with
    | zero => rfl
    | succ n =>
      rw [hrs, hspec, List.range_succ, List.map_append]
      simp only [List.map_cons, List.map_nil]
      rw [List.getLast?_concat]
      simp [hlat n]
  refine ⟨rfl, rfl, ?_, ?_, ?_, ?_, ?_, ?_⟩
  · rw [hrs, hspec]
    simp
  · rw [hrs, hspec]
    intro r hr
    rcases List.mem_map.mp hr with ⟨f, -, rfl⟩
    exact hlat f
  · unfold buildBiomech
    dsimp only
    rw [hfin]
    rfl
  · unfold buildBiomech
    dsimp only
    rw [hfin]
    rfl
  · unfold buildBiomech
    dsimp only
    rw [hfin]
    rfl
  · rfl

/-- Witness for the amended C8 at a concrete input: a three-frame run with
no shots yields a three-row timeline and a zero-shot summary. -/
theorem empty_shots_zero_summary_wit :
    (buildBiomech cenv [] 3).total_shots = 0 ∧
    (timelineOf 3 (runStats cenv [])).length = 3 :=
  ⟨(empty_shots_zero_summary cenv 3).2.2.2.2.1,
   (empty_shots_zero_summary cenv 3).2.2.1⟩
